import Mathlib

/-!
Shallow embedding of the MAVProxy link-multiplexing protocol engine
(mavproxy.py): the battery-percentage curve, the avionics battery update,
PWM scaling, the link-delay state machine, the parsed-log journal record
layout, the periodic link-status check, master-link selection and the
waypoint-upload request handler, together with theorems settling the
specification claims C1-C10.

Python floats are modelled by exact rationals (every constant involved is an
exact decimal and the integer magnitudes stay far below 2^53, so Python's
float arithmetic agrees with rational arithmetic on all comparisons made);
microsecond timestamps are modelled by naturals (Python ints are unbounded
and nonnegative here).
-/

namespace MAVProxy

/-- Embeds `vcell_to_battery_percent` (mavproxy.py lines 696-708), exactly as
written in the source, including the duplicated `vcell > 3.81` test guarding
the third branch (which the first `vcell > 3.81` test shadows). -/
def vcell_to_battery_percent (vcell : ℚ) : ℚ :=
  if vcell > 4.1 then
    100.0
  else if vcell > 3.81 then
    17.0 + 83.0 * (vcell - 3.81) / (4.1 - 3.81)
  else if vcell > 3.81 then
    0.0 + 17.0 * (vcell - 3.20) / (3.81 - 3.20)
  else
    0.0

/-- The battery curve as claim C1 states it: the third branch is guarded by
`vcell > 3.20` (this matches the source's own comment "below 3.2 it degrades
fast. It's dead at 3.2"). -/
def vcell_to_battery_percent_claimed (vcell : ℚ) : ℚ :=
  if vcell > 4.1 then
    100.0
  else if vcell > 3.81 then
    17.0 + 83.0 * (vcell - 3.81) / (4.1 - 3.81)
  else if vcell > 3.20 then
    17.0 * (vcell - 3.20) / (3.81 - 3.20)
  else
    0.0

/-- Embeds `battery_update` (lines 711-731). The state it reads and writes is
passed explicitly: the `numcells` setting, whether an `AP_ADC` message is in
the status mirror (and its `adc2` field), the message's `battery_remaining`
and the previous `avionics_battery_level`. The result is
`some (battery_level, avionics_battery_level)`; `none` models the
`ZeroDivisionError` Python raises at `voltage / mpstate.settings.numcells`
when `numcells == 0` (the source has no guard on `numcells`). -/
def battery_update (numcells : ℚ) (ap_adc_present : Bool) (adc2 : ℚ)
    (battery_remaining : ℚ) (avionics_battery_level : ℚ) : Option (ℚ × ℚ) :=
  let battery_level := battery_remaining / 10.0
  if ap_adc_present = false then
    some (battery_level, avionics_battery_level)
  else if numcells = 0 then
    none
  else
    let voltage := adc2 * (4.68 / 1024.0) * 3.56
    let vcell := voltage / numcells
    let sample := vcell_to_battery_percent vcell
    if avionics_battery_level = -1 ∨ |sample - avionics_battery_level| > 70 then
      some (battery_level, sample)
    else
      some (battery_level, (95 * avionics_battery_level + 5 * sample) / 100)

/-- Embeds `scale_rc` (lines 629-645). The two PWM limit parameters are passed
in directly (the source reads them from the parameter table with default 0);
the source's `min`/`max` arguments are called `min_out`/`max_out` here. -/
def scale_rc (servo : ℚ) (min_out max_out : ℚ) (min_pwm max_pwm : ℚ) : ℚ :=
  if min_pwm = 0 ∨ max_pwm = 0 then
    0
  else
    let p : ℚ := if max_pwm = min_pwm then 0 else (servo - min_pwm) / (max_pwm - min_pwm)
    let v : ℚ := min_out + p * (max_out - min_out)
    let v1 : ℚ := if v < min_out then min_out else v
    if v1 > max_out then max_out else v1

/-- The 8-byte big-endian encoding produced by `struct.pack` with format
`>Q` (one natural per byte). -/
def pack_u64_be (v : Nat) : List Nat :=
  [v / 2 ^ 56 % 256, v / 2 ^ 48 % 256, v / 2 ^ 40 % 256, v / 2 ^ 32 % 256,
   v / 2 ^ 24 % 256, v / 2 ^ 16 % 256, v / 2 ^ 8 % 256, v % 256]

/-- Embeds the journal-header computation of `master_callback` (lines
798-804): `usec = (usec & ~3) | master.linknum`. For a nonnegative Python
int, `usec & ~3` clears the two low bits, i.e. equals `usec - usec % 4`.
Note the source ORs in the full `linknum`, not `linknum & 0x3`. -/
def journal_header (t linknum : Nat) : Nat :=
  (t - t % 4) ||| linknum

/-- The parsed-log record enqueued by `master_callback`: the 8-byte
big-endian header followed by the raw frame bytes. -/
def journal_record (t linknum : Nat) (frame : List Nat) : List Nat :=
  pack_u64_be (journal_header t linknum) ++ frame

/-- The journal header as claim C4 states it: the low two bits of the
timestamp are replaced by `linknum & 0x3`. -/
def journal_header_claimed (t linknum : Nat) : Nat :=
  (t - t % 4) ||| (linknum &&& 3)

/-- Embeds `process_waypoint_request` (lines 305-320) at wall time `now` for
an inbound WAYPOINT_REQUEST/MISSION_REQUEST with sequence number `seq`. The
state it touches is `loading_waypoints`, `loading_waypoint_lasttime` and the
loader's waypoint count; the second component of the result is the sequence
number of the waypoint frame sent to the master, if any. -/
structure WPState where
  loading_waypoints : Bool
  loading_waypoint_lasttime : ℚ
  wpcount : Nat
  deriving DecidableEq

def process_waypoint_request (now : ℚ) (seq : Nat) (st : WPState) :
    WPState × Option Nat :=
  if st.loading_waypoints = false ∨ now > st.loading_waypoint_lasttime + 10 then
    ({ st with loading_waypoints := false }, none)
  else if seq ≥ st.wpcount then
    (st, none)
  else if seq = st.wpcount - 1 then
    ({ st with loading_waypoint_lasttime := now, loading_waypoints := false }, some seq)
  else
    ({ st with loading_waypoint_lasttime := now }, some seq)

/-- C1: the source's `vcell_to_battery_percent` does not follow the claimed
piecewise-linear curve on the band 3.20 < vcell ≤ 3.81: the third branch is
dead code (its guard repeats `vcell > 3.81`), so the source returns 0 at
vcell = 3.5 where the claimed curve (and the source's own comment about 3.2)
gives 17·(3.5−3.20)/(3.81−3.20) = 510/61 ≈ 8.36. -/
theorem C1_dead_branch_eval :
    vcell_to_battery_percent 3.5 = 0 ∧
    vcell_to_battery_percent_claimed 3.5 = 510 / 61 := by
  constructor <;>
    norm_num [vcell_to_battery_percent, vcell_to_battery_percent_claimed]

/-- C9: `battery_update` has no `numcells > 0` guard: with an AP_ADC message
present (adc2 = 700) and the default setting `numcells = 0`, the division
`voltage / numcells` is reached and raises (modelled as `none`), rather than
leaving `avionics_battery_level` unchanged. -/
theorem C9_numcells_zero_eval :
    battery_update 0 true 700 95 (-1) = none := by
  rfl

/-- C4: the journal header is `(t & ~3) | linknum` with the full link number
ORed in, not `(t & ~3) | (linknum & 0x3)` as claimed: for link number 4 and
engine timestamp 0 the source writes header bytes ending in 4 (bit 2 of the
timestamp corrupted) where the claim requires 0; the frame bytes follow the
8 header bytes unchanged. -/
theorem C4_full_linknum_eval :
    journal_record 0 4 [171] = [0, 0, 0, 0, 0, 0, 0, 4, 171] ∧
    journal_header_claimed 0 4 = 0 ∧
    journal_header 0 4 ≠ journal_header_claimed 0 4 := by
  refine ⟨rfl, rfl, ?_⟩
  decide

/-- C8: whenever more than 10 seconds have passed since the last serviced
request, `process_waypoint_request` sends no waypoint frame and sets
`loading_waypoints` to false, returning the upload state machine to Idle. -/
theorem C8_upload_timeout (now : ℚ) (seq : Nat) (st : WPState)
    (ht : now > st.loading_waypoint_lasttime + 10) :
    (process_waypoint_request now seq st).2 = none ∧
    (process_waypoint_request now seq st).1.loading_waypoints = false := by
  unfold process_waypoint_request
  rw [if_pos (Or.inr ht)]
  exact ⟨rfl, rfl⟩

theorem C8_upload_timeout_witness :
    (20 : ℚ) > 0 + 10 ∧
    ((process_waypoint_request 20 2 ⟨true, 0, 5⟩).2 = none ∧
      (process_waypoint_request 20 2 ⟨true, 0, 5⟩).1.loading_waypoints = false) :=
  ⟨by norm_num, C8_upload_timeout 20 2 ⟨true, 0, 5⟩ (by norm_num)⟩

/-- C10: `scale_rc` is total: with both PWM limits nonzero and equal the
scale factor is taken as 0 (no division by zero) and the result is
`min_out`; with both limits nonzero the result is clamped into
`[min_out, max_out]`; and with either limit zero the result is 0. -/
theorem C10_scale_rc_total (servo min_out max_out min_pwm max_pwm : ℚ)
    (hord : min_out ≤ max_out) :
    (min_pwm ≠ 0 → max_pwm ≠ 0 → min_pwm = max_pwm →
      scale_rc servo min_out max_out min_pwm max_pwm = min_out) ∧
    (min_pwm ≠ 0 → max_pwm ≠ 0 →
      min_out ≤ scale_rc servo min_out max_out min_pwm max_pwm ∧
      scale_rc servo min_out max_out min_pwm max_pwm ≤ max_out) ∧
    ((min_pwm = 0 ∨ max_pwm = 0) →
      scale_rc servo min_out max_out min_pwm max_pwm = 0) := by
  refine ⟨?_, ?_, ?_⟩
  · intro h1 h2 heq
    have hne : ¬(min_pwm = 0 ∨ max_pwm = 0) := by
      push_neg
      exact ⟨h1, h2⟩
    simp only [scale_rc, if_neg hne, if_pos heq.symm]
    norm_num
    intro hlt
    linarith
  · intro h1 h2
    simp only [scale_rc, if_neg (show ¬(min_pwm = 0 ∨ max_pwm = 0) by push_neg; exact ⟨h1, h2⟩)]
    constructor
    · split_ifs <;> linarith
    · split_ifs <;> linarith
  · intro h
    simp only [scale_rc, if_pos h]

theorem C10_scale_rc_total_witness :
    (0 : ℚ) ≤ 1 ∧ scale_rc 1500 0 1 1000 1000 = 0 :=
  ⟨by norm_num,
    (C10_scale_rc_total 1500 0 1 1000 1000 (by norm_num)).1
      (by norm_num) (by norm_num) rfl⟩

/-- The per-master-link fields read and written by `handle_usec_timestamp`. -/
structure Link where
  highest_usec : Nat
  link_delayed : Bool
  deriving DecidableEq

/-- The state `handle_usec_timestamp` touches: the list `mpstate.mav_master`
of master links and the link-set clock `mpstate.status.highest_usec`. -/
structure UsecState where
  links : List Link
  highest_usec : Nat
  deriving DecidableEq

/-- Embeds `handle_usec_timestamp` (lines 759-782), acting on the master link
at position `idx` of `mpstate.mav_master` for a message whose `usec` field is
`usec`. An out-of-range `idx` (impossible in the program, where the handled
master is a member of the list) leaves the state unchanged. -/
def handle_usec_timestamp (st : UsecState) (idx : Nat) (usec : Nat) : UsecState :=
  match st.links[idx]? with
  | none => st
  | some ml =>
    if usec + 60000000 < ml.highest_usec then
      { highest_usec := usec,
        links := st.links.map fun l => { l with link_delayed := false, highest_usec := usec } }
    else
      let hs := if usec > st.highest_usec then usec else st.highest_usec
      let delayed :=
        if usec + 1000000 < hs ∧ ml.link_delayed = false then true
        else if usec + 500000 > hs ∧ ml.link_delayed = true then false
        else ml.link_delayed
      { highest_usec := hs,
        links := st.links.set idx { highest_usec := usec, link_delayed := delayed } }

theorem ite_gt_eq_max (h usec : Nat) :
    (if usec > h then usec else h) = max h usec := by
  rcases Nat.lt_or_ge h usec with hlt | hle
  · rw [if_pos hlt, Nat.max_eq_right (Nat.le_of_lt hlt)]
  · rw [if_neg (Nat.not_lt.mpr hle), Nat.max_eq_left hle]

/-- C3: on a message satisfying the wrap condition
`usec + 6·10⁷ < link.highest_usec`, `handle_usec_timestamp` resets the link
set's `highest_usec` to `usec`, and for every link in the set puts
`highest_usec := usec` and `link_delayed := false`, touching nothing else
(the links list keeps its length and the function returns right after). -/
theorem C3_wrap_reset (st : UsecState) (idx usec : Nat) (ml : Link)
    (hm : st.links[idx]? = some ml)
    (hw : usec + 60000000 < ml.highest_usec) :
    (handle_usec_timestamp st idx usec).highest_usec = usec ∧
    (∀ l ∈ (handle_usec_timestamp st idx usec).links,
      l.highest_usec = usec ∧ l.link_delayed = false) ∧
    (handle_usec_timestamp st idx usec).links.length = st.links.length := by
  simp only [handle_usec_timestamp, hm, if_pos hw]
  refine ⟨by trivial, ?_, by simp⟩
  intro l hl
  rw [List.mem_map] at hl
  obtain ⟨a, _, rfl⟩ := hl
  exact ⟨rfl, rfl⟩

theorem C3_wrap_reset_witness :
    (([⟨70000000, true⟩] : List Link)[0]? = some ⟨70000000, true⟩) ∧
    0 + 60000000 < 70000000 ∧
    ((handle_usec_timestamp ⟨[⟨70000000, true⟩], 70000000⟩ 0 0).highest_usec = 0 ∧
      (∀ l ∈ (handle_usec_timestamp ⟨[⟨70000000, true⟩], 70000000⟩ 0 0).links,
        l.highest_usec = 0 ∧ l.link_delayed = false) ∧
      (handle_usec_timestamp ⟨[⟨70000000, true⟩], 70000000⟩ 0 0).links.length =
        ([⟨70000000, true⟩] : List Link).length) :=
  ⟨rfl, by decide,
    C3_wrap_reset ⟨[⟨70000000, true⟩], 70000000⟩ 0 0 ⟨70000000, true⟩ rfl (by decide)⟩

/-- C2 counterexample: a non-wrap message can lower a link's `highest_usec`.
With the link at `highest_usec = 2·10⁶` and a message at `usec = 10⁶`, the
wrap condition does not hold (the clock retreats by less than 60 s), yet the
link's `highest_usec` drops from 2·10⁶ to 10⁶, contradicting the claimed
monotonicity on non-wrap messages. -/
theorem C2_counterexample :
    ¬ (1000000 + 60000000 < 2000000) ∧
    ((handle_usec_timestamp ⟨[⟨2000000, false⟩], 2000000⟩ 0 1000000).links[0]?.map
        Link.highest_usec = some 1000000) ∧
    1000000 < 2000000 := by
  decide

/-- C2 (amended): on a non-wrap message, `handle_usec_timestamp` sets the
link's `highest_usec` to the message's `usec` — which can be below the
previous value by up to 6·10⁷ μs — while the link set's `highest_usec` is
monotonically non-decreasing. -/
theorem C2_nonwrap_highest_usec (st : UsecState) (idx usec : Nat) (ml : Link)
    (hm : st.links[idx]? = some ml)
    (hw : ¬ usec + 60000000 < ml.highest_usec) :
    ((handle_usec_timestamp st idx usec).links[idx]?.map Link.highest_usec = some usec) ∧
    ml.highest_usec ≤ usec + 60000000 ∧
    st.highest_usec ≤ (handle_usec_timestamp st idx usec).highest_usec := by
  have hlt : idx < st.links.length := by
    rw [List.getElem?_eq_some] at hm
    exact hm.1
  simp only [handle_usec_timestamp, hm, if_neg hw]
  refine ⟨?_, Nat.not_lt.mp hw, ?_⟩
  · rw [List.getElem?_set_eq_of_lt _ hlt]
    rfl
  · split_ifs with h
    · exact Nat.le_of_lt h
    · exact Nat.le_refl _

theorem C2_nonwrap_highest_usec_witness :
    (([⟨0, false⟩] : List Link)[0]? = some ⟨0, false⟩) ∧
    ¬ (5 + 60000000 < 0) ∧
    (((handle_usec_timestamp ⟨[⟨0, false⟩], 0⟩ 0 5).links[0]?.map Link.highest_usec
        = some 5) ∧
      (0 : Nat) ≤ 5 + 60000000 ∧
      (0 : Nat) ≤ (handle_usec_timestamp ⟨[⟨0, false⟩], 0⟩ 0 5).highest_usec) :=
  ⟨rfl, by decide,
    C2_nonwrap_highest_usec ⟨[⟨0, false⟩], 0⟩ 0 5 ⟨0, false⟩ rfl (by decide)⟩

/-- C6 counterexample: at the boundary `usec + 5·10⁵ = link_set.highest_usec`
(after the max-update) a delayed link stays delayed, because the source's
recovery test `usec + 0.5e6 > mpstate.status.highest_usec` is strict. Here
the set's clock is 10⁶, the message has `usec = 5·10⁵` (not a wrap), and the
link remains `link_delayed = true` where the claim requires it cleared. -/
theorem C6_counterexample :
    ¬ (500000 + 60000000 < 600000) ∧
    500000 + 500000 = max 1000000 500000 ∧
    ((handle_usec_timestamp ⟨[⟨600000, true⟩], 1000000⟩ 0 500000).links[0]?.map
        Link.link_delayed = some true) := by
  decide

/-- C6 (amended): for a delayed link and a non-wrap message,
`handle_usec_timestamp` clears `link_delayed` exactly when `usec + 5·10⁵`
STRICTLY exceeds the link set's `highest_usec` after the max-update; at
`usec + 5·10⁵ = link_set.highest_usec` the link stays delayed. -/
theorem C6_delay_recovery_strict (st : UsecState) (idx usec : Nat) (ml : Link)
    (hm : st.links[idx]? = some ml)
    (hd : ml.link_delayed = true)
    (hw : ¬ usec + 60000000 < ml.highest_usec) :
    (usec + 500000 > max st.highest_usec usec →
      (handle_usec_timestamp st idx usec).links[idx]?.map Link.link_delayed = some false) ∧
    (usec + 500000 ≤ max st.highest_usec usec →
      (handle_usec_timestamp st idx usec).links[idx]?.map Link.link_delayed = some true) := by
  have hlt : idx < st.links.length := by
    rw [List.getElem?_eq_some] at hm
    exact hm.1
  have hmax : (if usec > st.highest_usec then usec else st.highest_usec)
      = max st.highest_usec usec := ite_gt_eq_max _ _
  constructor
  · intro hr
    simp only [handle_usec_timestamp, hm, if_neg hw, hmax]
    rw [if_neg (by simp [hd]), if_pos ⟨hr, hd⟩, List.getElem?_set_eq_of_lt _ hlt]
    rfl
  · intro hr
    simp only [handle_usec_timestamp, hm, if_neg hw, hmax]
    rw [if_neg (by simp [hd]),
      if_neg (fun hc => absurd hc.1 (Nat.not_lt.mpr hr)),
      List.getElem?_set_eq_of_lt _ hlt]
    rw [Option.map_some', hd]

theorem C6_delay_recovery_strict_witness :
    (([⟨0, true⟩] : List Link)[0]? = some (⟨0, true⟩ : Link)) ∧
    ¬ (1 + 60000000 < 0) ∧
    1 + 500000 > max 0 1 ∧
    (handle_usec_timestamp ⟨[⟨0, true⟩], 0⟩ 0 1).links[0]?.map Link.link_delayed
      = some false :=
  ⟨rfl, by decide, by decide,
    (C6_delay_recovery_strict ⟨[⟨0, true⟩], 0⟩ 0 1 ⟨0, true⟩ rfl rfl (by decide)).1
      (by decide)⟩

/-- The `say` announcements made by `check_link_status`. -/
inductive Announce where
  | noHeartbeat : Announce
  | linkDown (displaynum : Nat) : Announce
  deriving DecidableEq

/-- The per-link fields read and written by `check_link_status`. -/
structure HBLink where
  linknum : Nat
  linkerror : Bool
  last_heartbeat : ℚ
  deriving DecidableEq

/-- The state touched by `check_link_status`: the engine-wide
`last_heartbeat` and `heartbeat_error` plus the master links. -/
structure HBState where
  last_heartbeat : ℚ
  heartbeat_error : Bool
  links : List HBLink
  deriving DecidableEq

/-- Embeds `check_link_status` (lines 1083-1092) at wall time `tnow`,
returning the updated state and the announcements made, in source order.
The engine-wide branch has no `heartbeat_error` guard in the source; each
per-link branch is guarded by `not master.linkerror`. -/
def check_link_status (tnow : ℚ) (st : HBState) : HBState × List Announce :=
  ({ st with
      heartbeat_error :=
        if st.last_heartbeat ≠ 0 ∧ tnow > st.last_heartbeat + 5 then true
        else st.heartbeat_error,
      links := st.links.map fun l =>
        if l.linkerror = false ∧ tnow > l.last_heartbeat + 5 then
          { l with linkerror := true }
        else l },
    (if st.last_heartbeat ≠ 0 ∧ tnow > st.last_heartbeat + 5 then
        [Announce.noHeartbeat]
      else []) ++
      st.links.filterMap fun l =>
        if l.linkerror = false ∧ tnow > l.last_heartbeat + 5 then
          some (Announce.linkDown (l.linknum + 1))
        else none)

theorem length_filterMap_ite {α β : Type} (p : α → Prop) [DecidablePred p]
    (f : α → β) (l : List α) :
    (l.filterMap fun a => if p a then some (f a) else none).length =
      (l.filter fun a => decide (p a)).length := by
  induction l with
  | nil => rfl
  | cons a t ih =>
    by_cases h : p a <;>
      simp [List.filterMap_cons, List.filter_cons, h, ih]

/-- C5 counterexample: with `heartbeat_error` already `true` and the
heartbeat timeout still holding (`tnow = 10`, `last_heartbeat = 1`),
`check_link_status` announces "no heartbeat" again — the engine-wide
announcement is not guarded by `heartbeat_error`, contradicting the claimed
at-most-once behaviour. -/
theorem C5_counterexample :
    (⟨1, true, []⟩ : HBState).heartbeat_error = true ∧
    (10 : ℚ) > 1 + 5 ∧
    (check_link_status 10 ⟨1, true, []⟩).2 = [Announce.noHeartbeat] := by
  refine ⟨rfl, by norm_num, ?_⟩
  have hcond : (1 : ℚ) ≠ 0 ∧ (10 : ℚ) > 1 + 5 := by norm_num
  simp only [check_link_status, List.filterMap_nil, List.append_nil]
  norm_num

/-- C5 (amended): the engine-wide heartbeat-loss announcement is not
latched: every invocation of the check announces and re-sets
`heartbeat_error` while the timeout holds, even when `heartbeat_error` is
already true, whereas the per-link announcements are guarded by the link's
not-already-errored condition (exactly one announcement per
not-yet-errored timed-out link, hence the output length below). -/
theorem C5_heartbeat_announce_repeats (tnow : ℚ) (st : HBState)
    (h0 : st.last_heartbeat ≠ 0) (ht : tnow > st.last_heartbeat + 5)
    (he : st.heartbeat_error = true) :
    Announce.noHeartbeat ∈ (check_link_status tnow st).2 ∧
    (check_link_status tnow st).1.heartbeat_error = true ∧
    (check_link_status tnow st).2.length =
      1 + (st.links.filter fun l =>
        decide (l.linkerror = false ∧ tnow > l.last_heartbeat + 5)).length := by
  have hcond : st.last_heartbeat ≠ 0 ∧ tnow > st.last_heartbeat + 5 := ⟨h0, ht⟩
  simp only [check_link_status, if_pos hcond]
  refine ⟨List.mem_append_left _ (List.Mem.head _), by trivial, ?_⟩
  rw [List.length_append, List.length_singleton, length_filterMap_ite]

theorem C5_heartbeat_announce_repeats_witness :
    ((1 : ℚ) ≠ 0) ∧ ((10 : ℚ) > 1 + 5) ∧
    (⟨1, true, [⟨0, true, 0⟩, ⟨1, false, 0⟩]⟩ : HBState).heartbeat_error = true ∧
    (Announce.noHeartbeat ∈
        (check_link_status 10 ⟨1, true, [⟨0, true, 0⟩, ⟨1, false, 0⟩]⟩).2 ∧
      (check_link_status 10 ⟨1, true, [⟨0, true, 0⟩, ⟨1, false, 0⟩]⟩).1.heartbeat_error
        = true ∧
      (check_link_status 10 ⟨1, true, [⟨0, true, 0⟩, ⟨1, false, 0⟩]⟩).2.length =
        1 + (([⟨0, true, 0⟩, ⟨1, false, 0⟩] : List HBLink).filter fun l =>
          decide (l.linkerror = false ∧ (10 : ℚ) > l.last_heartbeat + 5)).length) :=
  ⟨by norm_num, by norm_num, rfl,
    C5_heartbeat_announce_repeats 10 ⟨1, true, [⟨0, true, 0⟩, ⟨1, false, 0⟩]⟩
      (by norm_num) (by norm_num) rfl⟩

/-- The per-master-link health flag read by `MPState.master`. -/
structure MLink where
  linkerror : Bool
  deriving DecidableEq

/-- The normalization `MPState.master` (lines 163-174) applies to
`settings.link` before indexing: an index greater than the number of links
becomes 1. -/
def normalized_link (links : List MLink) (link : Nat) : Nat :=
  if link > links.length then 1 else link

/-- The preferred link `mav_master[settings.link - 1]` after normalization,
for a 1-based preference as in the program (`settings.link` defaults to 1 and
the claim's preference index is 1-based): the index is then always in range,
given at least one master link. Python's negative-index behaviour at
`settings.link ≤ 0` is outside the claim and not modelled; out of range,
`getD` yields an errored placeholder. -/
def preferred_master (links : List MLink) (link : Nat) : MLink :=
  links.getD (normalized_link links link - 1) ⟨true⟩

/-- Embeds `MPState.master` (lines 163-174): `link` is the 1-based
`settings.link` preference. The source mutates `settings.link` when
normalizing, so the normalized index is returned as the first component. -/
def master (links : List MLink) (link : Nat) : Nat × MLink :=
  let nlink := normalized_link links link
  let preferred := preferred_master links link
  if preferred.linkerror = false then
    (nlink, preferred)
  else
    match links.find? fun m => !m.linkerror with
    | some m => (nlink, m)
    | none => (nlink, preferred)

theorem find?_first {α : Type} (p : α → Bool) (a : α) :
    ∀ l : List α, l.find? p = some a →
      ∃ i, ∃ hi : i < l.length, l.get ⟨i, hi⟩ = a ∧ p a = true ∧
        ∀ j (hj : j < i), p (l.get ⟨j, Nat.lt_trans hj hi⟩) = false := by
  intro l
  induction l with
  | nil => intro h; simp [List.find?] at h
  | cons x t ih =>
    intro h
    by_cases hx : p x = true
    · rw [List.find?_cons_of_pos _ hx, Option.some_inj] at h
      subst h
      exact ⟨0, Nat.succ_pos _, rfl, hx, fun j hj => absurd hj (Nat.not_lt_zero j)⟩
    · rw [List.find?_cons_of_neg _ hx] at h
      obtain ⟨i, hi, hget, hpa, hbef⟩ := ih h
      refine ⟨i + 1, Nat.succ_lt_succ hi, hget, hpa, ?_⟩
      intro j hj
      match j, hj with
      | 0, _ => exact Bool.not_eq_true _ ▸ eq_false_of_ne_true hx
      | k + 1, hj => exact hbef k (Nat.lt_of_succ_lt_succ hj)

/-- C7: `MPState.master` first normalizes an out-of-range preference
(greater than the number of links) to 1 and keeps the normalized value in
range; it returns the preferred link when that link is healthy, the first
link in list order with `linkerror = false` when the preferred link is
errored and some healthy link exists, and the preferred link again when
every link is errored; a repeated call on the resulting (normalized)
preference with unchanged link state returns the same answer. -/
theorem C7_master_selection (links : List MLink) (link : Nat)
    (hne : links ≠ []) (h1 : 1 ≤ link) :
    (master links link).1 = normalized_link links link ∧
    (1 ≤ normalized_link links link ∧ normalized_link links link ≤ links.length) ∧
    ((preferred_master links link).linkerror = false →
      (master links link).2 = preferred_master links link) ∧
    ((∀ m ∈ links, m.linkerror = true) →
      (master links link).2 = preferred_master links link) ∧
    ((preferred_master links link).linkerror = true →
      (∃ m ∈ links, m.linkerror = false) →
      ∃ i, ∃ hi : i < links.length,
        links.get ⟨i, hi⟩ = (master links link).2 ∧
        (master links link).2.linkerror = false ∧
        ∀ j (hj : j < i), (links.get ⟨j, Nat.lt_trans hj hi⟩).linkerror = true) ∧
    master links ((master links link).1) = master links link := by
  have hlen : 0 < links.length := List.length_pos.mpr hne
  have hnorm1 : 1 ≤ normalized_link links link := by
    unfold normalized_link
    split_ifs <;> omega
  have hnorm2 : normalized_link links link ≤ links.length := by
    unfold normalized_link
    split_ifs with h
    · exact hlen
    · omega
  have hfst : (master links link).1 = normalized_link links link := by
    simp only [master]
    split_ifs
    · rfl
    · cases hfind : links.find? fun m => !m.linkerror <;> simp [hfind]
  refine ⟨hfst, ⟨hnorm1, hnorm2⟩, ?_, ?_, ?_, ?_⟩
  · intro hp
    simp only [master]
    rw [if_pos hp]
  · intro hall
    have hidx : normalized_link links link - 1 < links.length := by omega
    have hpm : preferred_master links link ∈ links := by
      unfold preferred_master
      rw [List.getD_eq_getElem links ⟨true⟩ hidx]
      exact List.getElem_mem hidx
    have hperr : (preferred_master links link).linkerror = true := hall _ hpm
    have hpneg : ¬ (preferred_master links link).linkerror = false := by
      simp [hperr]
    have hfind : (links.find? fun m => !m.linkerror) = none := by
      rw [List.find?_eq_none]
      intro x hx
      simp [hall x hx]
    simp only [master]
    rw [if_neg hpneg, hfind]
  · intro hperr hex
    have hpneg : ¬ (preferred_master links link).linkerror = false := by
      simp [hperr]
    cases hfind : links.find? fun m => !m.linkerror with
    | none =>
      rw [List.find?_eq_none] at hfind
      obtain ⟨m, hm, hmf⟩ := hex
      exact absurd (by simp [hmf] : (!m.linkerror) = true) (hfind m hm)
    | some a =>
      have hres : (master links link).2 = a := by
        simp only [master]
        rw [if_neg hpneg, hfind]
      obtain ⟨i, hi, hget, hpa, hbef⟩ := find?_first _ a links hfind
      rw [Bool.not_eq_true'] at hpa
      refine ⟨i, hi, ?_, ?_, ?_⟩
      · rw [hres, hget]
      · rw [hres]
        exact hpa
      · intro j hj
        have hb := hbef j hj
        rw [Bool.not_eq_false'] at hb
        exact hb
  · rw [hfst]
    by_cases hgt : link > links.length
    · have h2 : normalized_link links link = 1 := if_pos hgt
      rw [h2]
      simp only [master, preferred_master, normalized_link]
      rw [if_neg (Nat.not_lt.mpr hlen), if_pos hgt]
    · have h2 : normalized_link links link = link := if_neg hgt
      rw [h2]

theorem C7_master_selection_witness :
    (([⟨true⟩, ⟨false⟩] : List MLink) ≠ []) ∧ 1 ≤ 5 ∧
    ((master [⟨true⟩, ⟨false⟩] 5).1 = normalized_link [⟨true⟩, ⟨false⟩] 5 ∧
      (1 ≤ normalized_link [⟨true⟩, ⟨false⟩] 5 ∧
        normalized_link [⟨true⟩, ⟨false⟩] 5 ≤ ([⟨true⟩, ⟨false⟩] : List MLink).length) ∧
      ((preferred_master [⟨true⟩, ⟨false⟩] 5).linkerror = false →
        (master [⟨true⟩, ⟨false⟩] 5).2 = preferred_master [⟨true⟩, ⟨false⟩] 5) ∧
      ((∀ m ∈ ([⟨true⟩, ⟨false⟩] : List MLink), m.linkerror = true) →
        (master [⟨true⟩, ⟨false⟩] 5).2 = preferred_master [⟨true⟩, ⟨false⟩] 5) ∧
      ((preferred_master [⟨true⟩, ⟨false⟩] 5).linkerror = true →
        (∃ m ∈ ([⟨true⟩, ⟨false⟩] : List MLink), m.linkerror = false) →
        ∃ i, ∃ hi : i < ([⟨true⟩, ⟨false⟩] : List MLink).length,
          ([⟨true⟩, ⟨false⟩] : List MLink).get ⟨i, hi⟩ = (master [⟨true⟩, ⟨false⟩] 5).2 ∧
          (master [⟨true⟩, ⟨false⟩] 5).2.linkerror = false ∧
          ∀ j (hj : j < i),
            (([⟨true⟩, ⟨false⟩] : List MLink).get ⟨j, Nat.lt_trans hj hi⟩).linkerror = true) ∧
      master [⟨true⟩, ⟨false⟩] ((master [⟨true⟩, ⟨false⟩] 5).1) = master [⟨true⟩, ⟨false⟩] 5) :=
  ⟨by decide, by decide,
    C7_master_selection [⟨true⟩, ⟨false⟩] 5 (by decide) (by decide)⟩

end MAVProxy
